import Mathlib

/-!
Shallow embedding of `fetch_all_products.py`, a scraper that collects
networking-hardware product rows from four vendor sites, classifies them,
deduplicates them (per adapter and globally) and exports them to CSV.

Python strings are modelled as `List Char`.  Python's `str.lower` is
modelled by ASCII case folding (`Char.toLower`); every string constant in
the program and every claim scenario is covered by this restriction.
Fetched pages are modelled abstractly: a page carries the result of
`BeautifulSoup.select` for each CSS selector string, and the list of
anchors returned by `select('a[href]')`.  A page whose fetch raised a
transport error is modelled as `none`.
-/

/-- Python strings, modelled as lists of characters. -/
abbrev Str := List Char

/-- Embed a Lean string literal as a Python string value. -/
def str (s : String) : Str := s.data

/-- Python `\s` for the character set this program manipulates
(ASCII whitespace). -/
def isSpaceChar (c : Char) : Bool :=
  c == ' ' || c == '\t' || c == '\n' || c == '\r' || c == '\x0b' || c == '\x0c'

theorem dropWhile_length_le (p : α → Bool) :
    ∀ l : List α, (l.dropWhile p).length ≤ l.length := by
  intro l
  induction l with
  | nil => exact Nat.le_refl _
  | cons a as ih =>
    by_cases h : p a
    · simp only [List.dropWhile_cons_of_pos h]
      exact Nat.le_succ_of_le ih
    · simp [List.dropWhile_cons_of_neg h]

/-- Run of `re.sub(r'\s+', ' ', s)` with a flag recording whether the
previous character was whitespace: each maximal whitespace run becomes a
single space. -/
def collapseWSAux (prevSpace : Bool) : Str → Str
  | [] => []
  | c :: cs =>
    if isSpaceChar c then
      if prevSpace then collapseWSAux true cs
      else ' ' :: collapseWSAux true cs
    else c :: collapseWSAux false cs

/-- `re.sub(r'\s+', ' ', s)`: replace each maximal run of whitespace by
a single space. -/
def collapseWS (l : Str) : Str := collapseWSAux false l

/-- Python `str.strip()` (whitespace trim at both ends). -/
def stripWS (l : Str) : Str :=
  ((l.dropWhile isSpaceChar).reverse.dropWhile isSpaceChar).reverse

/-- `clean_text` (source lines 36-38): `None` maps to the empty string,
otherwise whitespace runs are collapsed to single spaces and the ends are
trimmed. -/
def clean_text (s : Option Str) : Str :=
  match s with
  | none => []
  | some t => stripWS (collapseWS t)

/-- Python's ASCII lowercasing of a string (`str.lower`); exact for the
ASCII strings this program compares. -/
def lowerStr (l : Str) : Str := l.map Char.toLower

/-- `text.splitlines()[0]` for non-empty `text`: the prefix before the
first line-break character. -/
def firstLine (l : Str) : Str :=
  l.takeWhile (fun c => !(c == '\n' || c == '\r' || c == '\x0b' || c == '\x0c'))

/-- Python `needle in haystack` auxiliary: list-prefix test. -/
def listPrefixOf : Str → Str → Bool
  | [], _ => true
  | _ :: _, [] => false
  | a :: as, b :: bs => a == b && listPrefixOf as bs

/-- Python substring containment `needle in haystack`. -/
def containsSub (needle : Str) : Str → Bool
  | [] => listPrefixOf needle []
  | c :: cs => listPrefixOf needle (c :: cs) || containsSub needle cs

/-- A scraped product row (the dicts built throughout the source). -/
structure Row where
  category : Str
  brand : Str
  model : Str
  source_url : Str
deriving DecidableEq, Repr

/-- An element matched by a CSS selector: its text content and, for the
MikroTik extractor, the `href` of its enclosing anchor when
`el.find_parent('a', href=True)` finds one. -/
structure Element where
  text : Str
  parentHref : Option Str
deriving DecidableEq, Repr

/-- An anchor element with an `href` attribute (`select('a[href]')`). -/
structure Anchor where
  href : Str
  text : Str
deriving DecidableEq, Repr

/-- A fetched, parsed page, abstracted to the queries the program makes:
`select` gives the elements matched by a CSS selector string (a selector
string containing commas is a single opaque query, as in BeautifulSoup),
and `anchors` gives the result of `select('a[href]')`. -/
structure Page where
  select : Str → List Element
  anchors : List Anchor

/-- `requests.compat.urljoin(base, href)` at this program's call sites:
the MikroTik, Mimosa and Cambium sites pass a path-absolute `href`
(leading `/`) against a bare scheme-plus-host base, where `urljoin` is
exactly concatenation; an absolute `href` is returned unchanged.  (The
Ubiquiti anchor pass may produce other shapes; no verified claim depends
on those joined values.) -/
def urljoin (base href : Str) : Str :=
  match href with
  | '/' :: _ => base ++ href
  | _ => href

/-- Concatenation of the lists produced for each element, in order (the
translation of an appending `for` loop over `l`). -/
def concatMap (f : α → List β) : List α → List β
  | [] => []
  | a :: as => f a ++ concatMap f as

theorem concatMap_append (f : α → List β) (l₁ l₂ : List α) :
    concatMap f (l₁ ++ l₂) = concatMap f l₁ ++ concatMap f l₂ := by
  induction l₁ with
  | nil => rfl
  | cons a as ih => simp [concatMap, ih]

theorem mem_concatMap {f : α → List β} {b : β} {l : List α} :
    b ∈ concatMap f l ↔ ∃ a ∈ l, b ∈ f a := by
  induction l with
  | nil => simp [concatMap]
  | cons a as ih => simp [concatMap, ih]

/-- `(l.filterMap fun a => if p a then some (f a) else none)` keeps
exactly the elements satisfying `p`, mapped by `f`. -/
theorem filterMap_ite_eq_map_filter (p : α → Bool) (f : α → β) (l : List α) :
    (l.filterMap fun a => if p a then some (f a) else none) =
      (l.filter p).map f := by
  induction l with
  | nil => rfl
  | cons a as ih =>
    by_cases h : p a
    · simp [List.filterMap_cons, List.filter_cons, h, ih]
    · simp [List.filterMap_cons, List.filter_cons, h, ih]

/-! ### Deduplication (source lines 136-143, 194-201, 240-247, 302-309, 355-368)

Each pass keeps a `seen` set of keys and appends a row only when its key
is fresh; the first occurrence of each key wins. -/

/-- The seen-set loop shared by every dedup pass in the source. -/
def dedupeByAux (key : Row → Str × Str) (seen : List (Str × Str)) :
    List Row → List Row
  | [] => []
  | r :: rs =>
    if key r ∈ seen then dedupeByAux key seen rs
    else r :: dedupeByAux key (key r :: seen) rs

/-- Adapter-local dedup key (e.g. source line 140):
`(r['brand'].lower(), r['model'].lower())`. -/
def localKey (r : Row) : Str × Str := (lowerStr r.brand, lowerStr r.model)

/-- Characters the global dedup key keeps in the model:
`re.sub(r'[^a-z0-9\(\)\- ]', '', ...)` (source line 359). -/
def keepGlobalChar (c : Char) : Bool :=
  ('a' ≤ c && c ≤ 'z') || ('0' ≤ c && c ≤ '9') ||
    c == '(' || c == ')' || c == '-' || c == ' '

/-- Global dedup key (source line 359):
`(r['brand'].strip().lower(), re.sub(r'[^a-z0-9\(\)\- ]','', r['model'].strip().lower()))`. -/
def globalKey (r : Row) : Str × Str :=
  (lowerStr (stripWS r.brand),
   (lowerStr (stripWS r.model)).filter keepGlobalChar)

/-- Specification-side rendering of the claimed global key: the brand
lowercased, the model with every character that is not alphanumeric, a
space, a hyphen, or a parenthesis removed, then lowercased.  Used only to
compare the claim's wording against the implemented key. -/
def claimGlobalKey (r : Row) : Str × Str :=
  (lowerStr r.brand,
   lowerStr (r.model.filter fun c =>
     c.isAlphanum || c == ' ' || c == '-' || c == '(' || c == ')'))

/-- "Exactly the first row of each key-equivalence class survives, in
order": keep the head, drop every later row with the same key, recurse. -/
def keepFirsts (key : Row → Str × Str) : List Row → List Row
  | [] => []
  | r :: rs =>
    r :: keepFirsts key (rs.filter fun x => decide (key x ≠ key r))
termination_by l => l.length
decreasing_by
  exact Nat.lt_succ_of_le (List.length_filter_le _ _)

theorem dedupeByAux_eq_keepFirsts (key : Row → Str × Str) :
    ∀ (rows : List Row) (seen : List (Str × Str)),
      dedupeByAux key seen rows =
        keepFirsts key (rows.filter fun r => decide (key r ∉ seen)) := by
  intro rows
  induction rows with
  | nil => intro seen; simp [dedupeByAux, keepFirsts]
  | cons r rs ih =>
    intro seen
    by_cases h : key r ∈ seen
    · rw [show (r :: rs).filter (fun r => decide (key r ∉ seen)) =
          rs.filter (fun r => decide (key r ∉ seen)) by simp [h]]
      simp only [dedupeByAux, if_pos h]
      exact ih seen
    · rw [show (r :: rs).filter (fun r => decide (key r ∉ seen)) =
          r :: rs.filter (fun r => decide (key r ∉ seen)) by simp [h]]
      simp only [dedupeByAux, if_neg h, keepFirsts]
      rw [ih (key r :: seen), List.filter_filter]
      have hf : rs.filter (fun x => decide (key x ∉ key r :: seen)) =
          rs.filter (fun a =>
            decide (key a ≠ key r) && decide (key a ∉ seen)) := by
        apply List.filter_congr
        intro x _
        by_cases hx : key x = key r <;> by_cases hs : key x ∈ seen <;>
          simp [hx, hs]
      rw [hf]

theorem dedupe_eq_keepFirsts (key : Row → Str × Str) (rows : List Row) :
    dedupeByAux key [] rows = keepFirsts key rows := by
  rw [dedupeByAux_eq_keepFirsts]
  congr 1
  apply List.filter_eq_self.mpr
  intro a _
  simp

theorem mem_dedupeByAux {key : Row → Str × Str} :
    ∀ {rows : List Row} {seen : List (Str × Str)} {r : Row},
      r ∈ dedupeByAux key seen rows → r ∈ rows := by
  intro rows
  induction rows with
  | nil => intro seen r h; exact absurd h (by simp [dedupeByAux])
  | cons x xs ih =>
    intro seen r h
    simp only [dedupeByAux] at h
    split at h
    · exact List.mem_cons_of_mem _ (ih h)
    · rcases List.mem_cons.mp h with h | h
      · exact h ▸ List.mem_cons_self _ _
      · exact List.mem_cons_of_mem _ (ih h)

theorem dedupeByAux_key_fresh {key : Row → Str × Str} :
    ∀ {rows : List Row} {seen : List (Str × Str)} {r : Row},
      r ∈ dedupeByAux key seen rows → key r ∉ seen := by
  intro rows
  induction rows with
  | nil => intro seen r h; exact absurd h (by simp [dedupeByAux])
  | cons x xs ih =>
    intro seen r h
    simp only [dedupeByAux] at h
    split at h
    · exact ih h
    · rcases List.mem_cons.mp h with h | h
      · subst h; assumption
      · intro hmem
        exact ih h (List.mem_cons_of_mem _ hmem)

theorem dedupeByAux_keys_nodup {key : Row → Str × Str} :
    ∀ (rows : List Row) (seen : List (Str × Str)),
      ((dedupeByAux key seen rows).map key).Nodup := by
  intro rows
  induction rows with
  | nil => intro seen; simp [dedupeByAux]
  | cons x xs ih =>
    intro seen
    simp only [dedupeByAux]
    split
    · exact ih seen
    · simp only [List.map_cons, List.nodup_cons]
      refine ⟨?_, ih _⟩
      intro hmem
      rcases List.mem_map.mp hmem with ⟨r, hr, hkey⟩
      exact dedupeByAux_key_fresh hr (hkey ▸ List.mem_cons_self _ _)

theorem dedupeByAux_eq_self {key : Row → Str × Str} :
    ∀ {rows : List Row} {seen : List (Str × Str)},
      ((rows.map key).Nodup) → (∀ r ∈ rows, key r ∉ seen) →
      dedupeByAux key seen rows = rows := by
  intro rows
  induction rows with
  | nil => intro seen _ _; rfl
  | cons x xs ih =>
    intro seen hnd hfresh
    simp only [List.map_cons, List.nodup_cons] at hnd
    have hx : key x ∉ seen := hfresh x (List.mem_cons_self _ _)
    simp only [dedupeByAux, if_neg hx]
    congr 1
    apply ih hnd.2
    intro r hr
    simp only [List.mem_cons, not_or]
    refine ⟨?_, hfresh r (List.mem_cons_of_mem _ hr)⟩
    intro hk
    exact hnd.1 (hk ▸ List.mem_map_of_mem key hr)

/-- A dedup pass is idempotent. -/
theorem dedupe_idem (key : Row → Str × Str) (rows : List Row) :
    dedupeByAux key [] (dedupeByAux key [] rows) = dedupeByAux key [] rows := by
  apply dedupeByAux_eq_self (dedupeByAux_keys_nodup rows [])
  intro r _
  simp

/-! ### The MikroTik adapter (source lines 62-157) -/

/-- The ordered selector strategies tried on every MikroTik page
(source lines 106-108). -/
def mikrotikSelectors : List Str :=
  [str ".product-title", str ".product-card__title", str "h3", str "h4",
   str ".title", str ".product-name"]

def mikrotikBase : Str := str "https://mikrotik.com"

/-- `source = parent_a['href'] if parent_a else url`, joined against the
site base when it is a non-empty path-absolute reference
(source lines 114-118). -/
def resolveSource (url : Str) (ph : Option Str) : Str :=
  let source := ph.getD url
  match source with
  | '/' :: _ => urljoin mikrotikBase source
  | _ => source

/-- Whether a selector-matched element yields a candidate: non-empty
normalized text strictly shorter than 120 characters (source line 113). -/
def mikrotikKeep (el : Element) : Bool :=
  decide (clean_text (some el.text) ≠ [] ∧
    (clean_text (some el.text)).length < 120)

def mikrotikRowOf (url : Str) (el : Element) : Row :=
  ⟨[], str "MikroTik", clean_text (some el.text),
    resolveSource url el.parentHref⟩

/-- The inner loop over one selector's matches (source lines 111-122). -/
def mikrotikElemRows (url : Str) (els : List Element) : List Row :=
  els.filterMap fun el =>
    if mikrotikKeep el then some (mikrotikRowOf url el) else none

/-- The outer selector loop shared by the MikroTik and Ubiquiti
extractors: each selector strategy is applied in turn and every match's
rows are appended to the accumulator — the loop never stops at a
selector that yielded results. -/
def selLoop (rowsOf : Str → List Row) : List Str → List Row → List Row
  | [], acc => acc
  | sel :: sels, acc => selLoop rowsOf sels (acc ++ rowsOf sel)

def mikrotikSelRows (url : Str) (p : Page) : List Row :=
  selLoop (fun sel => mikrotikElemRows url (p.select sel)) mikrotikSelectors []

def mikrotikCardSelector : Str :=
  str ".product, .product-card, .card, .catalog-item"

/-- The card pass (source lines 125-130).  It runs on every page
(the `found` list collected by the selector pass is never consulted),
and `text.splitlines()[0]` is applied to text whose line breaks
`clean_text` has already collapsed into spaces, so the emitted name is
the container's whole normalized text. -/
def mikrotikCardRows (url : Str) (p : Page) : List Row :=
  (p.select mikrotikCardSelector).filterMap fun card =>
    let text := clean_text (some card.text)
    let name := if text = [] then [] else firstLine text
    if name ≠ [] ∧ name.length < 120 then
      some ⟨[], str "MikroTik", name, url⟩
    else none

def mikrotikPageRows (url : Str) (p : Page) : List Row :=
  mikrotikSelRows url p ++ mikrotikCardRows url p

/-- Keyword lists of the category guess (source lines 149-153), kept
verbatim: `switch` appears twice and `wAP` mixes case (it can never
match the lowercased model, though `ap` subsumes it). -/
def mikrotikSwitchKeywords : List Str :=
  [str "switch", str "crs", str "switch", str "sfp", str "sg"]

def mikrotikApKeywords : List Str :=
  [str "hap", str "wAP", str "cap", str "ap", str "wireless",
   str "nano", str "sxt", str "lbe"]

def mikrotikPtpKeywords : List Str :=
  [str "ptp", str "ptmp", str "backhaul", str "c5", str "b5"]

/-- The category guess for one model name (source lines 147-156). -/
def mikrotikCategory (model : Str) : Str :=
  let m := lowerStr model
  if mikrotikSwitchKeywords.any (fun k => containsSub k m) then str "switch"
  else if mikrotikApKeywords.any (fun k => containsSub k m) then str "ap"
  else if mikrotikPtpKeywords.any (fun k => containsSub k m) then str "ptp"
  else str "router"

def mikrotikAssign (r : Row) : Row :=
  { r with category := mikrotikCategory r.model }

/-- The pure core of `fetch_mikrotik` (source lines 98-157), applied to
the crawled candidate pages in iteration order: each page contributes
its selector rows then its card rows; a page whose fetch or parse raised
is `none` and is skipped (source lines 131-134); the gathered rows are
deduplicated on the local key and then each survivor receives its
category guess. -/
def mikrotikFetchOne (up : Str × Option Page) : List Row :=
  match up.2 with
  | none => []
  | some p => mikrotikPageRows up.1 p

def fetch_mikrotik (pages : List (Str × Option Page)) : List Row :=
  (dedupeByAux localKey [] (concatMap mikrotikFetchOne pages)).map
    mikrotikAssign

/-! ### The Ubiquiti adapter (source lines 252-311) -/

/-- Selector strategies tried on every Ubiquiti page (source line 286). -/
def ubiquitiSelectors : List Str :=
  [str ".product-card__title", str ".product-title", str "h2", str "h3",
   str ".product-title a", str ".card-title"]

/-- Non-empty normalized text strictly shorter than 200 characters
(source line 289). -/
def ubiquitiKeep (el : Element) : Bool :=
  decide (clean_text (some el.text) ≠ [] ∧
    (clean_text (some el.text)).length < 200)

def ubiquitiRowOf (url : Str) (el : Element) : Row :=
  ⟨str "ap", str "Ubiquiti", clean_text (some el.text), url⟩

def ubiquitiElemRows (url : Str) (els : List Element) : List Row :=
  els.filterMap fun el =>
    if ubiquitiKeep el then some (ubiquitiRowOf url el) else none

def ubiquitiSelRows (url : Str) (p : Page) : List Row :=
  selLoop (fun sel => ubiquitiElemRows url (p.select sel)) ubiquitiSelectors []

/-- The anchor filter of source line 294 (note `/product` is matched
case-sensitively against the raw href). -/
def ubiquitiAnchorKeep (a : Anchor) : Bool :=
  containsSub (str "unifi") (lowerStr a.href) ||
  containsSub (str "airmax") (lowerStr a.href) ||
  containsSub (str "edge") (lowerStr a.href) ||
  containsSub (str "/product") a.href

/-- The anchor-harvesting pass (source lines 292-297). -/
def ubiquitiAnchorRows (url : Str) (p : Page) : List Row :=
  p.anchors.filterMap fun a =>
    if ubiquitiAnchorKeep a then
      if clean_text (some a.text) ≠ [] then
        some ⟨str "ap", str "Ubiquiti", clean_text (some a.text),
          urljoin url a.href⟩
      else none
    else none

def ubiquitiPageRows (url : Str) (p : Page) : List Row :=
  ubiquitiSelRows url p ++ ubiquitiAnchorRows url p

/-- The pure core of `fetch_ubiquiti` (source lines 252-311): per
candidate URL, a page that raised is skipped (source lines 298-300);
the gathered rows are deduplicated on the local key. -/
def ubiquitiFetchOne (up : Str × Option Page) : List Row :=
  match up.2 with
  | none => []
  | some p => ubiquitiPageRows up.1 p

def fetch_ubiquiti (pages : List (Str × Option Page)) : List Row :=
  dedupeByAux localKey [] (concatMap ubiquitiFetchOne pages)

/-! ### The Mimosa adapter (source lines 160-203) -/

def mimosaBase : Str := str "https://mimosa.co"

/-- Anchor harvesting used for the Mimosa main page and each category
page (source lines 169-176, 185-190): anchors whose href starts with
`/products/` and contains at least two slashes, with non-empty
normalized link text. -/
def mimosaAnchorRows (p : Page) : List Row :=
  p.anchors.filterMap fun a =>
    if listPrefixOf (str "/products/") a.href &&
        decide (2 ≤ a.href.count '/') then
      if clean_text (some a.text) ≠ [] then
        some ⟨str "ptp", str "Mimosa", clean_text (some a.text),
          urljoin mimosaBase a.href⟩
      else none
    else none

/-- The pure core of `fetch_mimosa` (source lines 160-203): the main
listing page, then the five category pages, a failed category-page fetch
contributing nothing (source lines 191-192); deduplicated on the local
key. -/
def mimosaCatOne (p? : Option Page) : List Row :=
  match p? with
  | none => []
  | some p => mimosaAnchorRows p

def fetch_mimosa (main : Page) (catPages : List (Option Page)) : List Row :=
  dedupeByAux localKey []
    (mimosaAnchorRows main ++ concatMap mimosaCatOne catPages)

/-! ### The Cambium adapter (source lines 206-249) -/

def cambiumBase : Str := str "https://www.cambiumnetworks.com"

/-- Anchor harvesting on the Cambium products page
(source lines 217-223). -/
def cambiumAnchorRows (p : Page) : List Row :=
  p.anchors.filterMap fun a =>
    if listPrefixOf (str "/products/") a.href &&
        decide (2 ≤ a.href.count '/') then
      if clean_text (some a.text) ≠ [] then
        some ⟨str "ptp", str "Cambium", clean_text (some a.text),
          urljoin cambiumBase a.href⟩
      else none
    else none

def cambiumPfSelector : Str :=
  str ".product-listing, .pf-result, .product-card, .product"

def cambiumPfUrl : Str := cambiumBase ++ str "/product-finder/"

/-- The product-finder pass (source lines 226-238): every match with
non-empty normalized text is kept — there is no length ceiling — and
`txt.splitlines()[0]` is applied after `clean_text` collapsed the line
breaks, so the name is the whole normalized text. -/
def cambiumPfRows (p : Page) : List Row :=
  (p.select cambiumPfSelector).filterMap fun el =>
    if clean_text (some el.text) ≠ [] then
      some ⟨str "ptp", str "Cambium", firstLine (clean_text (some el.text)),
        cambiumPfUrl⟩
    else none

/-- The pure core of `fetch_cambium` (source lines 206-249): the main
products page, then the product-finder page whose failure contributes
nothing (source lines 237-238); deduplicated on the local key. -/
def fetch_cambium (main : Page) (pf : Option Page) : List Row :=
  dedupeByAux localKey []
    (cambiumAnchorRows main ++
      (match pf with
       | none => []
       | some p => cambiumPfRows p))

/-! ### The runner and the entry point (source lines 314-392) -/

/-- The rows an adapter contributes to `rows_all`: an adapter whose run
raised is caught by the runner and contributes zero rows
(source lines 318-353). -/
def rowsOfResult (res : Except Str (List Row)) : List Row :=
  match res with
  | .ok rs => rs
  | .error _ => []

/-- The row pipeline of `run_all` (source lines 314-368): concatenate
the four adapters' contributions in order, then deduplicate globally on
`globalKey` keeping first occurrences.  (The per-field `r.get`
reassignments of lines 364-367 are identities on rows, which always
carry all four fields.) -/
def run_all (mk ub cb mm : Except Str (List Row)) : List Row :=
  dedupeByAux globalKey []
    (rowsOfResult mk ++ rowsOfResult ub ++ rowsOfResult cb ++ rowsOfResult mm)

/-- The `__main__` guard and the export tail of `run_all`
(source lines 370-392): exit code 1 before any fetching when
`--use-selenium` was passed but selenium is unavailable; otherwise the
deduplicated rows are exported and the interpreter ends with exit
code 0 — except on an empty row set: the per-brand export (source
lines 375-376) builds `pd.DataFrame(unique)` and groups it by the
brand column, and pandas gives an empty list an empty frame with no
columns, so `groupby('brand')` raises an uncaught KeyError (after the
main CSV was already written at line 372) and the interpreter
terminates with exit code 1.  On a non-empty row set every dict
carries the brand key (lines 364-367), the column exists and the
export completes. -/
def mainEntry (useSelenium seleniumOk : Bool)
    (mk ub cb mm : Except Str (List Row)) : Nat × List Row :=
  if useSelenium && !seleniumOk then (1, [])
  else (if run_all mk ub cb mm = [] then 1 else 0, run_all mk ub cb mm)

/-! ### CSV export (source lines 40-49, 370-372)

`save_to_csv` writes with `csv.DictWriter` under the default (excel)
dialect: fields joined by commas, records terminated by CRLF, a field
quoted (with inner quotes doubled) exactly when it contains a comma, a
quote, or a line-terminator character.  The parser below is the
standard reading of that format, used to state the claimed write-then-
parse round trip. -/

def csvNeedsQuote (c : Char) : Bool :=
  c == ',' || c == '"' || c == '\r' || c == '\n'

def csvEscapeQuotes : Str → Str
  | [] => []
  | c :: cs =>
    if c == '"' then '"' :: '"' :: csvEscapeQuotes cs
    else c :: csvEscapeQuotes cs

/-- One field as the csv module's minimal quoting emits it. -/
def csvField (s : Str) : Str :=
  if s.any csvNeedsQuote then '"' :: (csvEscapeQuotes s ++ ['"']) else s

def csvJoin : List Str → Str
  | [] => []
  | [f] => csvField f
  | f :: g :: fs => csvField f ++ ',' :: csvJoin (g :: fs)

def csvRecord (fs : List Str) : Str := csvJoin fs ++ ['\r', '\n']

/-- The fixed column list `keys` of `save_to_csv` (source line 41). -/
def csvHeaderFields : List Str :=
  [str "category", str "brand", str "model", str "source_url"]

def rowFields (r : Row) : List Str :=
  [r.category, r.brand, r.model, r.source_url]

/-- The text `save_to_csv` writes (source lines 40-49): the header
record, then one record per row in order. -/
def save_to_csv (rows : List Row) : Str :=
  csvRecord csvHeaderFields ++
    concatMap (fun r => csvRecord (rowFields r)) rows

/-- Read the remainder of a quoted field (the opening quote already
consumed); doubled quotes decode to one quote, the closing quote ends
the field. -/
def parseQuotedRest : Str → Option (Str × Str)
  | [] => none
  | c :: rest =>
    if c == '"' then
      match rest with
      | [] => some ([], [])
      | c2 :: rest2 =>
        if c2 == '"' then
          (parseQuotedRest rest2).map (fun fr => ('"' :: fr.1, fr.2))
        else some ([], rest)
    else (parseQuotedRest rest).map (fun fr => (c :: fr.1, fr.2))

/-- Read an unquoted field: everything up to the next comma or record
terminator. -/
def parseUnquoted (s : Str) : Str × Str :=
  (s.takeWhile (fun c => !(c == ',' || c == '\r')),
   s.dropWhile (fun c => !(c == ',' || c == '\r')))

def parseField : Str → Option (Str × Str)
  | [] => some ([], [])
  | c :: rest =>
    if c == '"' then parseQuotedRest rest
    else some (parseUnquoted (c :: rest))

/-- Read exactly `n` comma-separated fields. -/
def parseFields : Nat → Str → Option (List Str × Str)
  | 0, s => some ([], s)
  | n + 1, s =>
    match parseField s with
    | none => none
    | some (f, rest) =>
      if n = 0 then some ([f], rest)
      else
        match rest with
        | c :: rest2 =>
          if c = ',' then
            match parseFields n rest2 with
            | none => none
            | some (fs, rest3) => some (f :: fs, rest3)
          else none
        | [] => none

/-- Read one four-column record up to and including its CRLF. -/
def parseRecord (s : Str) : Option (List Str × Str) :=
  match parseFields 4 s with
  | none => none
  | some (fs, rest) =>
    match rest with
    | c1 :: c2 :: rest2 =>
      if c1 = '\r' ∧ c2 = '\n' then some (fs, rest2) else none
    | _ => none

/-- Read a sequence of records (fuelled by the input length). -/
def parseCsv : Nat → Str → Option (List (List Str))
  | 0, s => if s = [] then some [] else none
  | fuel + 1, s =>
    if s = [] then some []
    else
      match parseRecord s with
      | none => none
      | some (fs, r2) =>
        match parseCsv fuel r2 with
        | none => none
        | some recs => some (fs :: recs)

def parseCsvFile (s : Str) : Option (List (List Str)) :=
  parseCsv s.length s

/-- Rebuild a row from one parsed four-field record. -/
def rowOfFields : List Str → Option Row
  | [a, b, c, d] => some ⟨a, b, c, d⟩
  | _ => none

theorem takeWhile_append_stop (p : Char → Bool) (s rest : Str)
    (hs : ∀ c ∈ s, p c = true)
    (hr : ∀ c, rest.head? = some c → p c = false) :
    (s ++ rest).takeWhile p = s ∧ (s ++ rest).dropWhile p = rest := by
  induction s with
  | nil =>
    cases rest with
    | nil => simp
    | cons c cs =>
      have hc := hr c rfl
      simp [List.takeWhile_cons, List.dropWhile_cons, hc]
  | cons a as ih =>
    have ha := hs a (List.mem_cons_self _ _)
    have := ih (fun c hc => hs c (List.mem_cons_of_mem _ hc))
    simp [List.takeWhile_cons, List.dropWhile_cons, ha, this.1, this.2]

theorem parseQuotedRest_cons_ne (c : Char) (x : Str) (h : ¬c = '"') :
    parseQuotedRest (c :: x) =
      (parseQuotedRest x).map (fun fr => (c :: fr.1, fr.2)) := by
  rw [parseQuotedRest.eq_def]
  simp [h]

theorem parseQuotedRest_roundtrip (s rest : Str)
    (hr : rest.head? ≠ some '"') :
    parseQuotedRest (csvEscapeQuotes s ++ '"' :: rest) = some (s, rest) := by
  induction s with
  | nil =>
    cases rest with
    | nil => simp [csvEscapeQuotes, parseQuotedRest]
    | cons c cs =>
      have hc : (c == '"') = false := by
        simp only [List.head?_cons, ne_eq, Option.some.injEq] at hr
        simp [hr]
      simp [csvEscapeQuotes, parseQuotedRest, hc]
  | cons c cs ih =>
    by_cases h : c = '"'
    · subst h
      simp [csvEscapeQuotes, parseQuotedRest, ih]
    · have hc : (c == '"') = false := by simp [h]
      rw [show csvEscapeQuotes (c :: cs) = c :: csvEscapeQuotes cs by
        simp [csvEscapeQuotes, hc]]
      rw [List.cons_append, parseQuotedRest_cons_ne c _ h, ih]
      rfl

/-- The places a field may legitimately end: at the end of input, before
a comma, or before the record terminator. -/
def fieldStopper (rest : Str) : Prop :=
  rest = [] ∨ rest.head? = some ',' ∨ rest.head? = some '\r'

theorem parseField_roundtrip (s rest : Str) (hstop : fieldStopper rest) :
    parseField (csvField s ++ rest) = some (s, rest) := by
  by_cases hq : s.any csvNeedsQuote
  · have hr : rest.head? ≠ some '"' := by
      rcases hstop with h | h | h <;> simp [h]
    rw [show csvField s ++ rest =
        '"' :: (csvEscapeQuotes s ++ '"' :: rest) by
      simp [csvField, hq]]
    simp [parseField, parseQuotedRest_roundtrip s rest hr]
  · have hchars : ∀ c ∈ s, csvNeedsQuote c = false := by
      intro c hc
      by_contra hcc
      exact hq (List.any_eq_true.mpr ⟨c, hc, by simpa using hcc⟩)
    have hfield : csvField s = s := by simp [csvField, hq]
    rw [hfield]
    have hp : ∀ c ∈ s, (!(c == ',' || c == '\r')) = true := by
      intro c hc
      have := hchars c hc
      simp only [csvNeedsQuote, Bool.or_eq_false_iff] at this
      simp [this.1.1.1, this.1.2]
    have hrstop : ∀ c, rest.head? = some c → (!(c == ',' || c == '\r')) = false := by
      intro c hc
      rcases hstop with h | h | h
      · rw [h] at hc; exact absurd hc (by simp)
      · rw [h] at hc
        simp only [Option.some.injEq] at hc
        simp [← hc]
      · rw [h] at hc
        simp only [Option.some.injEq] at hc
        simp [← hc]
    have hsplit := takeWhile_append_stop _ s rest hp hrstop
    cases s with
    | nil =>
      rcases hstop with h | h | h
      · subst h; simp [parseField]
      · cases rest with
        | nil => exact absurd h (by simp)
        | cons c cs =>
          simp only [List.head?_cons, Option.some.injEq] at h
          subst h
          simp [parseField, parseUnquoted]
      · cases rest with
        | nil => exact absurd h (by simp)
        | cons c cs =>
          simp only [List.head?_cons, Option.some.injEq] at h
          subst h
          simp [parseField, parseUnquoted]
    | cons a as =>
      have ha : (a == '"') = false := by
        have := hchars a (List.mem_cons_self _ _)
        simp only [csvNeedsQuote, Bool.or_eq_false_iff] at this
        simp [this.1.1.2]
      have h1 := hsplit.1
      have h2 := hsplit.2
      rw [List.cons_append] at h1 h2
      simp only [List.cons_append, parseField, ha, Bool.false_eq_true,
        if_false, parseUnquoted, h1, h2]

theorem parseFields_succ (n : Nat) (s : Str) :
    parseFields (n + 1) s =
      match parseField s with
      | none => none
      | some (f, rest) =>
        if n = 0 then some ([f], rest)
        else
          match rest with
          | c :: rest2 =>
            if c = ',' then
              match parseFields n rest2 with
              | none => none
              | some (fs, rest3) => some (f :: fs, rest3)
            else none
          | [] => none := rfl

theorem parseFields_roundtrip (fs : List Str) (rest : Str)
    (hrest : rest.head? = some '\r') :
    parseFields fs.length (csvJoin fs ++ rest) = some (fs, rest) := by
  induction fs with
  | nil => simp [csvJoin, parseFields]
  | cons f fs ih =>
    cases fs with
    | nil =>
      have hf := parseField_roundtrip f rest (Or.inr (Or.inr hrest))
      rw [show ([f] : List Str).length = 0 + 1 from rfl, parseFields_succ,
        show csvJoin [f] = csvField f from rfl, hf]
      simp
    | cons g gs =>
      have hstop : fieldStopper (',' :: (csvJoin (g :: gs) ++ rest)) :=
        Or.inr (Or.inl rfl)
      have hf := parseField_roundtrip f _ hstop
      have hlen : (g :: gs).length ≠ 0 := by simp
      rw [show csvJoin (f :: g :: gs) ++ rest =
          csvField f ++ (',' :: (csvJoin (g :: gs) ++ rest)) by
        simp [csvJoin]]
      rw [show (f :: g :: gs).length = (g :: gs).length + 1 from rfl,
        parseFields_succ, hf]
      simp only [List.length_cons] at ih
      simp [hlen, ih]

theorem parseRecord_roundtrip (fs : List Str) (rest : Str)
    (h4 : fs.length = 4) :
    parseRecord (csvRecord fs ++ rest) = some (fs, rest) := by
  unfold parseRecord csvRecord
  rw [List.append_assoc, show (['\r', '\n'] ++ rest : Str) =
    '\r' :: '\n' :: rest by rfl]
  rw [← h4, parseFields_roundtrip fs ('\r' :: '\n' :: rest) rfl]
  simp

theorem csvRecord_length (fs : List Str) :
    (csvRecord fs).length = (csvJoin fs).length + 2 := by
  simp [csvRecord]

theorem parseCsv_body (rows : List Row) :
    ∀ fuel, (concatMap (fun r => csvRecord (rowFields r)) rows).length ≤ fuel →
      parseCsv fuel (concatMap (fun r => csvRecord (rowFields r)) rows) =
        some (rows.map rowFields) := by
  induction rows with
  | nil =>
    intro fuel _
    cases fuel <;> simp [concatMap, parseCsv]
  | cons r rs ih =>
    intro fuel hfuel
    have hbody : concatMap (fun r => csvRecord (rowFields r)) (r :: rs) =
        csvRecord (rowFields r) ++
          concatMap (fun r => csvRecord (rowFields r)) rs := rfl
    rw [hbody] at hfuel ⊢
    have hreclen := csvRecord_length (rowFields r)
    have hlen : (csvRecord (rowFields r) ++
        concatMap (fun r => csvRecord (rowFields r)) rs).length =
        (csvRecord (rowFields r)).length +
          (concatMap (fun r => csvRecord (rowFields r)) rs).length := by
      simp
    cases fuel with
    | zero => omega
    | succ m =>
      have hne : csvRecord (rowFields r) ++
          concatMap (fun r => csvRecord (rowFields r)) rs ≠ [] := by
        intro h
        have := congrArg List.length h
        simp only [List.length_nil] at this
        omega
      have hrec := parseRecord_roundtrip (rowFields r)
        (concatMap (fun r => csvRecord (rowFields r)) rs) rfl
      have hm : (concatMap (fun r => csvRecord (rowFields r)) rs).length ≤ m := by
        omega
      simp only [parseCsv, if_neg hne, hrec, ih m hm, List.map_cons]

/-- The full written file parses back to the header record followed by
one record per row, in order. -/
theorem parseCsvFile_save (rows : List Row) :
    parseCsvFile (save_to_csv rows) =
      some (csvHeaderFields :: rows.map rowFields) := by
  unfold parseCsvFile save_to_csv
  set body := concatMap (fun r => csvRecord (rowFields r)) rows with hbodydef
  have hreclen := csvRecord_length csvHeaderFields
  have hlen : (csvRecord csvHeaderFields ++ body).length =
      (csvRecord csvHeaderFields).length + body.length := by simp
  obtain ⟨m, hm⟩ : ∃ m, (csvRecord csvHeaderFields ++ body).length = m + 1 :=
    ⟨(csvRecord csvHeaderFields ++ body).length - 1, by omega⟩
  rw [hm]
  have hne : csvRecord csvHeaderFields ++ body ≠ [] := by
    intro h
    have := congrArg List.length h
    simp only [List.length_nil] at this
    omega
  have hrec := parseRecord_roundtrip csvHeaderFields body rfl
  have hbody := parseCsv_body rows m (by rw [← hbodydef]; omega)
  rw [← hbodydef] at hbody
  simp only [parseCsv, if_neg hne, hrec, hbody]

/-! ### Supporting lemmas about the extraction loops -/

theorem selLoop_eq_append (rowsOf : Str → List Row) :
    ∀ (sels : List Str) (acc : List Row),
      selLoop rowsOf sels acc = acc ++ concatMap rowsOf sels := by
  intro sels
  induction sels with
  | nil => intro acc; simp [selLoop, concatMap]
  | cons sel sels ih =>
    intro acc
    simp [selLoop, concatMap, ih, List.append_assoc]

theorem filterMap_if_eq_map_filter (p : α → Prop) [DecidablePred p]
    (f : α → β) (l : List α) :
    (l.filterMap fun a => if p a then some (f a) else none) =
      (l.filter fun a => decide (p a)).map f := by
  induction l with
  | nil => rfl
  | cons a as ih =>
    by_cases h : p a
    · simp [List.filterMap_cons, List.filter_cons, h, ih]
    · simp [List.filterMap_cons, List.filter_cons, h, ih]

theorem mikrotikCategory_cases (m : Str) :
    mikrotikCategory m = str "switch" ∨ mikrotikCategory m = str "ap" ∨
    mikrotikCategory m = str "ptp" ∨ mikrotikCategory m = str "router" := by
  simp only [mikrotikCategory]
  split_ifs <;> simp

theorem fetch_mikrotik_category {pages : List (Str × Option Page)}
    {r : Row} (hr : r ∈ fetch_mikrotik pages) :
    r.category = str "switch" ∨ r.category = str "ap" ∨
    r.category = str "ptp" ∨ r.category = str "router" := by
  unfold fetch_mikrotik at hr
  rcases List.mem_map.mp hr with ⟨x, _, hx⟩
  rw [← hx]
  exact mikrotikCategory_cases x.model

theorem ubiquitiElemRows_category {url : Str} {els : List Element}
    {r : Row} (hr : r ∈ ubiquitiElemRows url els) :
    r.category = str "ap" := by
  unfold ubiquitiElemRows at hr
  rcases List.mem_filterMap.mp hr with ⟨el, _, heq⟩
  split at heq
  · cases heq; rfl
  · cases heq

theorem ubiquitiPageRows_category {url : Str} {p : Page} {r : Row}
    (hr : r ∈ ubiquitiPageRows url p) : r.category = str "ap" := by
  unfold ubiquitiPageRows at hr
  rcases List.mem_append.mp hr with h | h
  · unfold ubiquitiSelRows at h
    rw [selLoop_eq_append] at h
    simp only [List.nil_append] at h
    rcases mem_concatMap.mp h with ⟨sel, _, hsel⟩
    exact ubiquitiElemRows_category hsel
  · unfold ubiquitiAnchorRows at h
    rcases List.mem_filterMap.mp h with ⟨a, _, heq⟩
    split at heq
    · split at heq
      · cases heq; rfl
      · cases heq
    · cases heq

theorem fetch_ubiquiti_category {pages : List (Str × Option Page)}
    {r : Row} (hr : r ∈ fetch_ubiquiti pages) : r.category = str "ap" := by
  unfold fetch_ubiquiti at hr
  have hr' := mem_dedupeByAux hr
  rcases mem_concatMap.mp hr' with ⟨up, _, hup⟩
  unfold ubiquitiFetchOne at hup
  rcases up with ⟨u, _ | p⟩
  · simp at hup
  · exact ubiquitiPageRows_category hup

theorem mimosaAnchorRows_category {p : Page} {r : Row}
    (hr : r ∈ mimosaAnchorRows p) : r.category = str "ptp" := by
  unfold mimosaAnchorRows at hr
  rcases List.mem_filterMap.mp hr with ⟨a, _, heq⟩
  split at heq
  · split at heq
    · cases heq; rfl
    · cases heq
  · cases heq

theorem fetch_mimosa_category {main : Page} {cats : List (Option Page)}
    {r : Row} (hr : r ∈ fetch_mimosa main cats) : r.category = str "ptp" := by
  unfold fetch_mimosa at hr
  have hr' := mem_dedupeByAux hr
  rcases List.mem_append.mp hr' with h | h
  · exact mimosaAnchorRows_category h
  · rcases mem_concatMap.mp h with ⟨p?, _, hp⟩
    unfold mimosaCatOne at hp
    rcases p? with _ | p
    · simp at hp
    · exact mimosaAnchorRows_category hp

theorem cambiumAnchorRows_category {p : Page} {r : Row}
    (hr : r ∈ cambiumAnchorRows p) : r.category = str "ptp" := by
  unfold cambiumAnchorRows at hr
  rcases List.mem_filterMap.mp hr with ⟨a, _, heq⟩
  split at heq
  · split at heq
    · cases heq; rfl
    · cases heq
  · cases heq

theorem cambiumPfRows_category {p : Page} {r : Row}
    (hr : r ∈ cambiumPfRows p) : r.category = str "ptp" := by
  unfold cambiumPfRows at hr
  rcases List.mem_filterMap.mp hr with ⟨el, _, heq⟩
  split at heq
  · cases heq; rfl
  · cases heq

theorem fetch_cambium_category {main : Page} {pf : Option Page} {r : Row}
    (hr : r ∈ fetch_cambium main pf) : r.category = str "ptp" := by
  unfold fetch_cambium at hr
  have hr' := mem_dedupeByAux hr
  rcases List.mem_append.mp hr' with h | h
  · exact cambiumAnchorRows_category h
  · rcases pf with _ | p
    · simp at h
    · exact cambiumPfRows_category h

/-! ### Claim C1 -/

def c1Row1 : Row := ⟨[], str "MikroTik", str " X", str "u1"⟩

def c1Row2 : Row := ⟨[], str "MikroTik", str "X", str "u2"⟩

/-- C1 is false as stated: under the claimed key — brand lowercased,
model filtered to alphanumerics, spaces, hyphens and parentheses and
then lowercased, with no whitespace trim — the rows with models " X"
and "X" fall in distinct key classes, so each being first in its class
both should survive; yet the implemented global pass (which trims
before keying) drops the second. -/
theorem c1_claimed_key_counterexample :
    claimGlobalKey c1Row1 ≠ claimGlobalKey c1Row2 ∧
      dedupeByAux globalKey [] [c1Row1, c1Row2] = [c1Row1] := by
  refine ⟨?_, ?_⟩ <;> decide

/-- C1 (amended): the global pass keys each row on the pair (brand
trimmed of surrounding whitespace and lowercased, model trimmed of
surrounding whitespace, lowercased, and with every character that is
not a lowercase letter, a digit, a space, a hyphen or a parenthesis
removed); for every input row sequence exactly the first row of each
key-equivalence class survives, in order, so two rows with equal keys
collapse to the first occurrence. -/
theorem c1_global_dedupe_first_of_class :
    (∀ rows : List Row,
      dedupeByAux globalKey [] rows = keepFirsts globalKey rows) ∧
    (∀ r1 r2 : Row, globalKey r1 = globalKey r2 →
      dedupeByAux globalKey [] [r1, r2] = [r1]) := by
  refine ⟨dedupe_eq_keepFirsts globalKey, ?_⟩
  intro r1 r2 h
  simp [dedupeByAux, h.symm]

def c1wRow1 : Row := ⟨[], str "MikroTik", str "hEX S", str "u1"⟩

def c1wRow2 : Row := ⟨[], str "mikrotik", str "hex s!", str "u2"⟩

/-- C1 witness: two concrete rows with equal global keys collapse to
the first. -/
theorem c1_global_dedupe_witness :
    globalKey c1wRow1 = globalKey c1wRow2 ∧
      dedupeByAux globalKey [] [c1wRow1, c1wRow2] = [c1wRow1] :=
  ⟨by decide,
   c1_global_dedupe_first_of_class.2 c1wRow1 c1wRow2 (by decide)⟩

/-! ### Claim C2 -/

def c2MkText : Str := List.replicate 120 'a'

def c2MkPage : Page :=
  ⟨fun s => if s = str ".product-title" then [⟨c2MkText, none⟩] else [],
   []⟩

def c2CbText : Str := List.replicate 300 'b'

def c2PfPage : Page :=
  ⟨fun s => if s = cambiumPfSelector then [⟨c2CbText, none⟩] else [],
   []⟩

set_option maxRecDepth 40000 in
/-- C2 is false as stated: a MikroTik candidate whose normalized text
is non-empty of length exactly 120 — not exceeding any ceiling in the
claimed 120-200 range — is discarded (the code keeps only lengths
strictly below 120), and a Cambium product-finder candidate of length
300 — exceeding every ceiling in that range — is kept (that pass has no
length test at all). -/
theorem c2_ceiling_counterexample :
    (clean_text (some c2MkText) ≠ [] ∧
      (clean_text (some c2MkText)).length = 120 ∧
      mikrotikSelRows (str "u") c2MkPage = []) ∧
    (200 < (clean_text (some c2CbText)).length ∧
      cambiumPfRows c2PfPage =
        [⟨str "ptp", str "Cambium", c2CbText, cambiumPfUrl⟩]) := by
  refine ⟨⟨?_, ?_, ?_⟩, ?_, ?_⟩ <;> decide

/-- C2 (amended): every selector strategy in the adapter's ordered list
is applied and all matches are unioned — the loop never stops at the
first productive strategy; a MikroTik candidate is kept iff its
normalized text is non-empty and strictly shorter than 120 characters,
a Ubiquiti candidate iff non-empty and strictly shorter than 200, and a
Cambium product-finder candidate iff non-empty, with no length
ceiling. -/
theorem c2_extraction_union_and_filter :
    (∀ (rowsOf : Str → List Row) (sels : List Str) (acc : List Row),
      selLoop rowsOf sels acc = acc ++ concatMap rowsOf sels) ∧
    (∀ (url : Str) (els : List Element),
      mikrotikElemRows url els =
        (els.filter mikrotikKeep).map (mikrotikRowOf url)) ∧
    (∀ (url : Str) (els : List Element),
      ubiquitiElemRows url els =
        (els.filter ubiquitiKeep).map (ubiquitiRowOf url)) ∧
    (∀ p : Page,
      cambiumPfRows p =
        ((p.select cambiumPfSelector).filter
            (fun el : Element =>
              decide (clean_text (some el.text) ≠ []))).map
          (fun el : Element =>
            (⟨str "ptp", str "Cambium",
              firstLine (clean_text (some el.text)), cambiumPfUrl⟩ : Row))) := by
  refine ⟨selLoop_eq_append, ?_, ?_, ?_⟩
  · intro url els
    exact filterMap_ite_eq_map_filter mikrotikKeep (mikrotikRowOf url) els
  · intro url els
    exact filterMap_ite_eq_map_filter ubiquitiKeep (ubiquitiRowOf url) els
  · intro p
    exact filterMap_if_eq_map_filter
      (fun el : Element => clean_text (some el.text) ≠ []) _ _

/-- C2 witness: the selector loop applied to two concrete strategies
unions both strategies' rows after the accumulator. -/
theorem c2_extraction_witness :
    selLoop (fun sel => mikrotikElemRows (str "u") (c2MkPage.select sel))
        [str "h3", str ".product-title"] [] =
      [] ++ concatMap
        (fun sel => mikrotikElemRows (str "u") (c2MkPage.select sel))
        [str "h3", str ".product-title"] :=
  c2_extraction_union_and_filter.1
    (fun sel => mikrotikElemRows (str "u") (c2MkPage.select sel))
    [str "h3", str ".product-title"] []

/-! ### Claim C3 -/

def c3CardText : Str := str "hEX S\n5-port Gigabit router"

def c3Page : Page :=
  ⟨fun s =>
    if s = str ".product-title" then [⟨str "CRS326", none⟩]
    else if s = mikrotikCardSelector then [⟨c3CardText, none⟩]
    else [],
   []⟩

/-- C3 evaluated at the failing input: on a page where the selector
strategies matched (they produced the "CRS326" row), the card pass
still emits a row — it is not conditioned on the selector passes having
found nothing — and that row's model is the card's whole
whitespace-normalized text, not the normalized first line "hEX S" the
claim (and the source's own comments) describe. -/
theorem c3_card_pass_eval :
    mikrotikPageRows (str "u") c3Page =
      [⟨[], str "MikroTik", str "CRS326", str "u"⟩,
       ⟨[], str "MikroTik", str "hEX S 5-port Gigabit router", str "u"⟩] ∧
    clean_text (some (firstLine c3CardText)) = str "hEX S" ∧
    str "hEX S" ≠ str "hEX S 5-port Gigabit router" := by
  refine ⟨?_, ?_, ?_⟩ <;> decide

/-! ### Claim C4 -/

def c4Page : Page :=
  ⟨fun s =>
    if s = str ".product-title" then
      [⟨str "CRS326", some (str "/product/crs326")⟩,
       ⟨str "crs326", some (str "/product/crs326-dup")⟩]
    else [],
   []⟩

/-- C4: adapter-local dedup keys on (lowercased brand, lowercased
model) and keeps exactly the first occurrence of each key class in
order (its source_url included); two rows whose brand and model differ
only in case collapse to the first; and the concrete CRS326 scenario
yields the single claimed row with category switch and the first
candidate's URL. -/
theorem c4_local_dedupe_scenario :
    (∀ rows : List Row,
      dedupeByAux localKey [] rows = keepFirsts localKey rows) ∧
    (∀ r1 r2 : Row, lowerStr r1.brand = lowerStr r2.brand →
      lowerStr r1.model = lowerStr r2.model →
      dedupeByAux localKey [] [r1, r2] = [r1]) ∧
    fetch_mikrotik [(str "https://mikrotik.com/products", some c4Page)] =
      [⟨str "switch", str "MikroTik", str "CRS326",
        str "https://mikrotik.com/product/crs326"⟩] := by
  refine ⟨dedupe_eq_keepFirsts localKey, ?_, ?_⟩
  · intro r1 r2 hb hm
    have hk : localKey r2 = localKey r1 := by
      simp only [localKey, Prod.mk.injEq]
      exact ⟨hb.symm, hm.symm⟩
    simp [dedupeByAux, hk]
  · decide

def c4wRow1 : Row := ⟨[], str "MikroTik", str "CRS326", str "u1"⟩

def c4wRow2 : Row := ⟨[], str "mikrotik", str "crs326", str "u2"⟩

/-- C4 witness: two concrete rows whose brand and model differ only in
case collapse to the first. -/
theorem c4_local_dedupe_witness :
    lowerStr c4wRow1.brand = lowerStr c4wRow2.brand ∧
    lowerStr c4wRow1.model = lowerStr c4wRow2.model ∧
    dedupeByAux localKey [] [c4wRow1, c4wRow2] = [c4wRow1] :=
  ⟨by decide, by decide,
   c4_local_dedupe_scenario.2.1 c4wRow1 c4wRow2 (by decide) (by decide)⟩

/-! ### Claim C5 -/

/-- C5: an exception during one adapter's run is caught by the runner
and degrades only that adapter's contribution to zero rows — the run's
output equals the output with that adapter contributing nothing, the
other adapters untouched; and within the MikroTik adapter a transport
failure on one candidate page skips only that page, the rows of the
remaining pages still being collected. -/
theorem c5_failure_isolation :
    (∀ (e : Str) (ub cb mm : Except Str (List Row)),
      run_all (.error e) ub cb mm = run_all (.ok []) ub cb mm) ∧
    (∀ (mk : Except Str (List Row)) (e : Str)
      (cb mm : Except Str (List Row)),
      run_all mk (.error e) cb mm = run_all mk (.ok []) cb mm) ∧
    (∀ (mk ub : Except Str (List Row)) (e : Str)
      (mm : Except Str (List Row)),
      run_all mk ub (.error e) mm = run_all mk ub (.ok []) mm) ∧
    (∀ (mk ub cb : Except Str (List Row)) (e : Str),
      run_all mk ub cb (.error e) = run_all mk ub cb (.ok [])) ∧
    (∀ (ps₁ ps₂ : List (Str × Option Page)) (u : Str),
      fetch_mikrotik (ps₁ ++ (u, none) :: ps₂) =
        fetch_mikrotik (ps₁ ++ ps₂)) := by
  refine ⟨fun _ _ _ _ => rfl, fun _ _ _ _ => rfl, fun _ _ _ _ => rfl,
    fun _ _ _ _ => rfl, ?_⟩
  intro ps₁ ps₂ u
  unfold fetch_mikrotik
  rw [concatMap_append, concatMap_append,
    show concatMap mikrotikFetchOne ((u, none) :: ps₂) =
        concatMap mikrotikFetchOne ps₂ by
      simp [concatMap, mikrotikFetchOne]]

/-- C5 witness: a concrete failing candidate page contributes nothing. -/
theorem c5_failure_isolation_witness :
    fetch_mikrotik ([] ++ (str "u", none) :: []) =
      fetch_mikrotik ([] ++ []) :=
  c5_failure_isolation.2.2.2.2 [] [] (str "u")

/-! ### Claim C6 -/

/-- C6 is false as stated: with rendering not requested and every
adapter failing, the surviving row set is empty, the per-brand export
raises an uncaught KeyError, and the process exits non-zero — so
"exits non-zero only if --use-selenium was requested but unavailable"
does not hold. -/
theorem c6_exit_counterexample :
    ¬(false = true ∧ true = false) ∧
    (mainEntry false true (.error (str "x")) (.error (str "x"))
        (.error (str "x")) (.error (str "x"))).1 ≠ 0 := by
  refine ⟨?_, ?_⟩ <;> decide

/-- C6 (amended): the process exits non-zero iff browser rendering was
requested while selenium is unavailable — then it stops at startup,
with exit code 1 and no rows, independent of any adapter — or the
deduplicated row set is empty, in which case the per-brand export
raises after the main CSV is written; apart from leaving the row set
empty, per-source failures do not affect the exit code. -/
theorem c6_exit_status :
    (∀ (u s : Bool) (mk ub cb mm : Except Str (List Row)),
      (mainEntry u s mk ub cb mm).1 ≠ 0 ↔
        ((u = true ∧ s = false) ∨ run_all mk ub cb mm = [])) ∧
    (∀ mk ub cb mm : Except Str (List Row),
      mainEntry true false mk ub cb mm = (1, [])) ∧
    (∀ (u s : Bool) (mk ub cb mm mk' ub' cb' mm' : Except Str (List Row)),
      run_all mk ub cb mm ≠ [] → run_all mk' ub' cb' mm' ≠ [] →
      (mainEntry u s mk ub cb mm).1 = (mainEntry u s mk' ub' cb' mm').1) := by
  refine ⟨?_, ?_, ?_⟩
  · intro u s mk ub cb mm
    cases u <;> cases s <;>
      by_cases h : run_all mk ub cb mm = [] <;> simp [mainEntry, h]
  · intro mk ub cb mm
    rfl
  · intro u s mk ub cb mm mk' ub' cb' mm' h h'
    cases u <;> cases s <;> simp [mainEntry, h, h']

def c6wRow : Row := ⟨str "ap", str "Ubiquiti", str "U6", str "u"⟩

/-- C6 witness: two concrete non-selenium runs with non-empty row sets
have the same (zero) exit code even though their adapter outcomes
differ. -/
theorem c6_exit_status_witness :
    run_all (.ok [c6wRow]) (.ok []) (.ok []) (.ok []) ≠ [] ∧
    run_all (.error (str "x")) (.ok [c6wRow]) (.ok []) (.ok []) ≠ [] ∧
    (mainEntry false true (.ok [c6wRow]) (.ok []) (.ok []) (.ok [])).1 =
      (mainEntry false true (.error (str "x")) (.ok [c6wRow])
        (.ok []) (.ok [])).1 :=
  ⟨by decide, by decide,
   c6_exit_status.2.2 false true (.ok [c6wRow]) (.ok []) (.ok []) (.ok [])
     (.error (str "x")) (.ok [c6wRow]) (.ok []) (.ok [])
     (by decide) (by decide)⟩

/-! ### Claim C7 -/

/-- C7: the model name "hAP ac²  " (two trailing spaces) normalizes to
"hAP ac²"; on that model no switch keyword matches, an access-point
keyword does, and the MikroTik classifier assigns the label ap. -/
theorem c7_hap_normalize_classify :
    clean_text (some (str "hAP ac²  ")) = str "hAP ac²" ∧
    (mikrotikSwitchKeywords.any fun k =>
      containsSub k (lowerStr (str "hAP ac²"))) = false ∧
    (mikrotikApKeywords.any fun k =>
      containsSub k (lowerStr (str "hAP ac²"))) = true ∧
    mikrotikCategory (str "hAP ac²") = str "ap" := by
  refine ⟨?_, ?_, ?_, ?_⟩ <;> decide

/-! ### Claim C8 -/

/-- C8: for every row list the exported CSV consists of the header
`category,brand,model,source_url` followed by exactly one record per
row in order; parsing the file back yields exactly those records in
order, and rebuilding a row from its four fields is the identity, so
the write-then-parse round trip preserves the tuples and their order. -/
theorem c8_csv_roundtrip (rows : List Row) :
    parseCsvFile (save_to_csv rows) =
      some (csvHeaderFields :: rows.map rowFields) ∧
    (rows.map rowFields).length = rows.length ∧
    (rows.map rowFields).map rowOfFields = rows.map some := by
  refine ⟨parseCsvFile_save rows, by simp, ?_⟩
  induction rows with
  | nil => rfl
  | cons r rs ih =>
    simp only [List.map_cons, ih, List.cons.injEq, and_true]
    rfl

def c8wRow : Row :=
  ⟨str "switch", str "MikroTik", str "CRS326",
   str "https://mikrotik.com/product/crs326"⟩

/-- C8 witness: the round trip on a concrete one-row export. -/
theorem c8_csv_roundtrip_witness :
    parseCsvFile (save_to_csv [c8wRow]) =
      some (csvHeaderFields :: [c8wRow].map rowFields) :=
  (c8_csv_roundtrip [c8wRow]).1

/-! ### Claim C9 -/

/-- C9: both deduplication passes are idempotent — applying the
adapter-local pass or the global pass to its own output returns that
output unchanged. -/
theorem c9_dedupe_idempotent (rows : List Row) :
    dedupeByAux localKey [] (dedupeByAux localKey [] rows) =
      dedupeByAux localKey [] rows ∧
    dedupeByAux globalKey [] (dedupeByAux globalKey [] rows) =
      dedupeByAux globalKey [] rows :=
  ⟨dedupe_idem localKey rows, dedupe_idem globalKey rows⟩

def c9wRow1 : Row := ⟨[], str "MikroTik", str "CRS326", str "u1"⟩

def c9wRow2 : Row := ⟨[], str "MikroTik", str "crs326", str "u2"⟩

/-- C9 witness: idempotence on a concrete two-row list that the local
pass actually collapses. -/
theorem c9_dedupe_idempotent_witness :
    dedupeByAux localKey [] (dedupeByAux localKey [] [c9wRow1, c9wRow2]) =
      dedupeByAux localKey [] [c9wRow1, c9wRow2] :=
  (c9_dedupe_idempotent [c9wRow1, c9wRow2]).1

/-! ### Claim C10 -/

/-- C10: every row that reaches the global dedup and export stage
carries one of the four labels switch, ap, ptp, router: the MikroTik
adapter always assigns a keyword-derived label, every Ubiquiti row is
created as ap, every Cambium and Mimosa row as ptp, and a failed
adapter contributes nothing, so the empty category the data model
allows never occurs in the output. -/
theorem c10_category_invariant
    (mk ub cb mm : Except Str (List Row))
    (hmk : ∀ rs, mk = .ok rs → ∃ ps, rs = fetch_mikrotik ps)
    (hub : ∀ rs, ub = .ok rs → ∃ ps, rs = fetch_ubiquiti ps)
    (hcb : ∀ rs, cb = .ok rs → ∃ main pf, rs = fetch_cambium main pf)
    (hmm : ∀ rs, mm = .ok rs → ∃ main cats, rs = fetch_mimosa main cats)
    (r : Row) (hr : r ∈ run_all mk ub cb mm) :
    r.category = str "switch" ∨ r.category = str "ap" ∨
    r.category = str "ptp" ∨ r.category = str "router" := by
  have hr' := mem_dedupeByAux hr
  rcases List.mem_append.mp hr' with h | hD
  rotate_left
  · cases mm with
    | error e => simp [rowsOfResult] at hD
    | ok rs =>
      obtain ⟨main, cats, hps⟩ := hmm rs rfl
      have hmem : r ∈ rs := hD
      rw [hps] at hmem
      exact Or.inr (Or.inr (Or.inl (fetch_mimosa_category hmem)))
  rcases List.mem_append.mp h with h' | hC
  rotate_left
  · cases cb with
    | error e => simp [rowsOfResult] at hC
    | ok rs =>
      obtain ⟨main, pf, hps⟩ := hcb rs rfl
      have hmem : r ∈ rs := hC
      rw [hps] at hmem
      exact Or.inr (Or.inr (Or.inl (fetch_cambium_category hmem)))
  rcases List.mem_append.mp h' with hA | hB
  · cases mk with
    | error e => simp [rowsOfResult] at hA
    | ok rs =>
      obtain ⟨ps, hps⟩ := hmk rs rfl
      have hmem : r ∈ rs := hA
      rw [hps] at hmem
      exact fetch_mikrotik_category hmem
  · cases ub with
    | error e => simp [rowsOfResult] at hB
    | ok rs =>
      obtain ⟨ps, hps⟩ := hub rs rfl
      have hmem : r ∈ rs := hB
      rw [hps] at hmem
      exact Or.inr (Or.inl (fetch_ubiquiti_category hmem))

def c10Page : Page := ⟨fun _ => [], [⟨str "/products/b5", str "B5"⟩]⟩

def c10Row : Row :=
  ⟨str "ptp", str "Mimosa", str "B5", str "https://mimosa.co/products/b5"⟩

/-- C10 witness: a concrete run in which only the Mimosa adapter
succeeds produces its row, whose category is in the four-label set. -/
theorem c10_category_invariant_witness :
    c10Row ∈ run_all (.error (str "x")) (.error (str "x"))
      (.error (str "x")) (.ok (fetch_mimosa c10Page [])) ∧
    (c10Row.category = str "switch" ∨ c10Row.category = str "ap" ∨
      c10Row.category = str "ptp" ∨ c10Row.category = str "router") :=
  ⟨by decide,
   c10_category_invariant (.error (str "x")) (.error (str "x"))
     (.error (str "x")) (.ok (fetch_mimosa c10Page []))
     (fun rs h => by cases h) (fun rs h => by cases h)
     (fun rs h => by cases h)
     (fun rs h => ⟨c10Page, [], by injection h with h2; exact h2.symm⟩)
     c10Row (by decide)⟩
